import Mathlib

/-
Verification of the geometry-normalization and mosaic-composition pipeline of
`gif_your_nifti` (src/gif_your_nifti/core.py) against its specification.

The numpy arrays of the source are embedded as shapes together with total
value functions; machine floats appearing in the source (half-integer padding
offsets, the intensity scale factor) are modelled by exact rationals, which
represents the float computations of the source faithfully on the quantities
involved (integer differences divided by two are exact in binary floating
point).  Fallible steps are modelled with Option/Except.
-/

namespace GifYourNifti

/-- Truncation toward zero of a rational number, modelling Python's `int()`
conversion applied to a float (core.py lines 67-69, 76, 78). -/
def truncQ (q : ℚ) : ℤ := if 0 ≤ q then ⌊q⌋ else -⌊-q⌋

/-- A 3D numeric array: a shape together with the values at each index
(meaningful for indices below the shape).  Models the numpy volumes of
`gif_your_nifti.core`. -/
structure Arr3 where
  nx : ℕ
  ny : ℕ
  nz : ℕ
  val : ℕ → ℕ → ℕ → ℚ

/-- `np.max(data.shape)` for a 3D array (core.py lines 60 and 97). -/
def maxShape (a : Arr3) : ℕ := max a.nx (max a.ny a.nz)

/-- Per-axis padding start offset of the legacy (anisotropic) normalizer,
core.py line 65: `x, y, z = (list(data.shape) - maximum) / -2` followed by
`int(x)` on line 67: float division by `-2` then truncation toward zero. -/
def legacyStart (m d : ℕ) : ℤ := truncQ (((d : ℚ) - (m : ℚ)) / (-2))

/-- Per-axis padding start offset of the isotropic normalizer, core.py
line 100: `start = ((maximum - shape) // 2)`, numpy floor division of
nonnegative integers. -/
def isoStart (m d : ℕ) : ℕ := (m - d) / 2

/-- Cube padding of the legacy normalizer, core.py lines 60-69: an all-zero
cube sized to the largest axis, with the data copied in at the truncated
half-pad offsets (`out_img[int(x):a + int(x), ...] = data`).  The offsets are
nonnegative (the data shape never exceeds the maximum), so `Int.toNat` is
lossless here. -/
def padCubeLegacy (data : Arr3) : Arr3 where
  nx := maxShape data
  ny := maxShape data
  nz := maxShape data
  val := fun i j k =>
    if (legacyStart (maxShape data) data.nx).toNat ≤ i ∧
       i < data.nx + (legacyStart (maxShape data) data.nx).toNat ∧
       (legacyStart (maxShape data) data.ny).toNat ≤ j ∧
       j < data.ny + (legacyStart (maxShape data) data.ny).toNat ∧
       (legacyStart (maxShape data) data.nz).toNat ≤ k ∧
       k < data.nz + (legacyStart (maxShape data) data.nz).toNat then
      data.val (i - (legacyStart (maxShape data) data.nx).toNat)
        (j - (legacyStart (maxShape data) data.ny).toNat)
        (k - (legacyStart (maxShape data) data.nz).toNat)
    else 0

/-- Cube padding of the isotropic normalizer, core.py lines 97-103: an
all-zero cube sized to the largest axis of the resampled data, with the data
copied in at the floor-divided offsets (`out_img[sx:ex, sy:ey, sz:ez] =
data_iso` with `start = (maximum - shape) // 2` and `end = start + shape`). -/
def padCubeIso (data : Arr3) : Arr3 where
  nx := maxShape data
  ny := maxShape data
  nz := maxShape data
  val := fun i j k =>
    if isoStart (maxShape data) data.nx ≤ i ∧
       i < isoStart (maxShape data) data.nx + data.nx ∧
       isoStart (maxShape data) data.ny ≤ j ∧
       j < isoStart (maxShape data) data.ny + data.ny ∧
       isoStart (maxShape data) data.nz ≤ k ∧
       k < isoStart (maxShape data) data.nz + data.nz then
      data.val (i - isoStart (maxShape data) data.nx)
        (j - isoStart (maxShape data) data.ny)
        (k - isoStart (maxShape data) data.nz)
    else 0

/-- The list of all in-range values of a 3D array. -/
def vals (a : Arr3) : List ℚ :=
  (List.range a.nx).flatMap fun i =>
    (List.range a.ny).flatMap fun j =>
      (List.range a.nz).map fun k => a.val i j k

/-- Model of `arr.max()` (core.py lines 71 and 106): the largest value of the array.
For nonempty shapes the seed `a.val 0 0 0` is itself an array element, so
this is the maximum of the array's values. -/
def maxVal (a : Arr3) : ℚ := (vals a).foldr max (a.val 0 0 0)

/-- Cast of a (nonnegative, in-range) float value to `np.uint8`
(core.py lines 72, 107, 111, 172, 342): truncate, keep the low byte. -/
def toUint8 (q : ℚ) : ℚ := ((truncQ q % 256 : ℤ) : ℚ)

/-- Result of the in-place intensity rescaling `out_img *= 255 /
out_img.max()` (core.py lines 71-72 and 106-107).  When the maximum is zero
the float division yields +inf and `0 * inf` yields NaN: numpy raises no
exception, it only emits a RuntimeWarning, and the NaN values flow into the
following uint8 cast.  `nonFinite` marks this silent NaN/Inf contamination;
no error is raised by the source at this point and no DataError class exists
anywhere in the source. -/
inductive ScaleResult where
  | nonFinite : ScaleResult
  | finite : Arr3 → ScaleResult

/-- The intensity rescaling stage, core.py lines 71-72 and 106-107. -/
def rescale255 (a : Arr3) : ScaleResult :=
  if maxVal a = 0 then ScaleResult.nonFinite
  else
    ScaleResult.finite
      { nx := a.nx, ny := a.ny, nz := a.nz,
        val := fun i j k => toUint8 (a.val i j k * (255 / maxVal a)) }

/-- Modelled from the spec: `skimage.transform.resize` is an external
collaborator (section 2 of the spec excludes it from the core).  Both call
sites (core.py lines 76 and 111) pass a cubic target shape `[t] * 3`; the
collaborator returns an array of exactly the requested shape with values
interpolated from the input.  Interpolated values are modelled by
nearest-index sampling; no claim inspects them, only the output shape. -/
def resizeCube (t : ℕ) (a : Arr3) : Arr3 where
  nx := t
  ny := t
  nz := t
  val := fun i j k =>
    a.val (i * a.nx / max t 1) (j * a.ny / max t 1) (k * a.nz / max t 1)

/-- core.py `load_and_prepare_image` (lines 41-80), from the loaded data
array onwards (`nb.load(...).get_fdata()` is an external collaborator).
Returns the prepared array and the reported `maximum = int(maximum * size)`.
`none` models the silent NaN contamination of a volume with zero maximum
intensity (see `ScaleResult.nonFinite`): the source returns garbage values in
that case and raises nothing. -/
def load_and_prepare_image (data : Arr3) (size : ℚ) : Option (Arr3 × ℤ) :=
  match rescale255 (padCubeLegacy data) with
  | ScaleResult.nonFinite => none
  | ScaleResult.finite img =>
    some (if size ≠ 1 then resizeCube (truncQ (size * (maxShape data : ℚ))).toNat img else img,
      truncQ ((maxShape data : ℚ) * size))

/-- core.py `load_and_prepare_image_isotropic` (lines 82-114), from the
resampled array `data_iso` onwards (`nb.load`, `nb.as_closest_canonical` and
`scipy.ndimage.zoom` are external collaborators).  With `size ≠ 1` the cube
is resized to `[int(size * maximum)] * 3` and `maximum` is re-read from the
resized shape (line 112). -/
def load_and_prepare_image_isotropic (dataIso : Arr3) (size : ℚ) : Option (Arr3 × ℕ) :=
  match rescale255 (padCubeIso dataIso) with
  | ScaleResult.nonFinite => none
  | ScaleResult.finite img =>
    if size ≠ 1 then
      some (resizeCube (truncQ (size * (maxShape dataIso : ℚ))).toNat img,
        (resizeCube (truncQ (size * (maxShape dataIso : ℚ))).toNat img).nx)
    else some (img, maxShape dataIso)

/-- Model of `np.flip(M, 1)` for a 2D array whose second axis has length `n`:
reverse the columns. -/
def flipAxis1 (n : ℕ) (M : ℕ → ℕ → ℚ) : ℕ → ℕ → ℚ := fun r c => M r (n - 1 - c)

/-- Transpose of a 2D array, `M.T`. -/
def transposeM (M : ℕ → ℕ → ℚ) : ℕ → ℕ → ℚ := fun r c => M c r

/-- Model of `np.hstack((A, B))` where `A` has width `w`: horizontal concatenation. -/
def hstackW (w : ℕ) (A B : ℕ → ℕ → ℚ) : ℕ → ℕ → ℚ :=
  fun r c => if c < w then A r c else B r (c - w)

/-- One mosaic frame at depth index `i` (core.py lines 131-135):
`np.hstack((np.hstack((np.flip(out_img[i, :, :], 1).T,
np.flip(out_img[:, maximum - i - 1, :], 1).T)),
np.flip(out_img[:, :, maximum - i - 1], 1).T))` for a cube of side `m`.
Each 2D slice of the cube is an `m × m` array, so the inner `hstack` has
width `2 * m`. -/
def frameAt (V : ℕ → ℕ → ℕ → ℚ) (m i : ℕ) : ℕ → ℕ → ℚ :=
  hstackW (2 * m)
    (hstackW m
      (transposeM (flipAxis1 m fun y z => V i y z))
      (transposeM (flipAxis1 m fun x z => V x (m - i - 1) z)))
    (transposeM (flipAxis1 m fun x y => V x y (m - i - 1)))

/-- Fuel-driven model of Python's `range(start, stop, step)` iteration: the
fuel bounds the number of steps and is sufficient whenever `fuel ≥ stop -
start` and `step ≥ 1` (the only regime the source uses: `range(0, maximum,
frameskip)` with `frameskip ≥ 1`). -/
def rangeStepAux (stop step : ℕ) : ℕ → ℕ → List ℕ
  | 0, _ => []
  | fuel + 1, start =>
    if start < stop then start :: rangeStepAux stop step fuel (start + step) else []

/-- Python's `range(start, stop, step)` for `step ≥ 1`. -/
def rangeStep (start stop step : ℕ) : List ℕ := rangeStepAux stop step stop start

/-- core.py `create_mosaic_normal` (lines 116-138): one frame per depth index
in `range(0, maximum, frameskip)`. -/
def create_mosaic_normal (V : ℕ → ℕ → ℕ → ℚ) (m frameskip : ℕ) : List (ℕ → ℕ → ℚ) :=
  (rangeStep 0 m frameskip).map (frameAt V m)

/-- An all-zero 3-channel frame: `np.zeros([...])` as appended by
`create_mosaic_depth` and `create_mosaic_RGB` (core.py lines 171-172 and
205-206). -/
def zeroFrame3 : ℕ → ℕ → ℕ → ℚ := fun _ _ _ => 0

/-- core.py `create_mosaic_depth` (lines 141-174).  `new_img[i:i+3, ...]` is
`take 3` of `drop i`; `np.rollaxis(np.array(rgb_img), 1, 4)` moves the
3-frame stack into a trailing channel axis, modelled pointwise (in the
regimes the claims cover the three stacked frames always exist, so the `getD`
default is never consulted); `np.vstack` appends three all-zero frames, and
`.astype(np.uint8)` casts every value. -/
def create_mosaic_depth (V : ℕ → ℕ → ℕ → ℚ) (m frameskip : ℕ) : List (ℕ → ℕ → ℕ → ℚ) :=
  (((List.range (m - 3)).map fun i =>
      fun r c ch =>
        (((create_mosaic_normal V m frameskip).drop i).take 3).getD ch (fun _ _ => 0) r c)
    ++ [zeroFrame3, zeroFrame3, zeroFrame3]).map
    fun f => fun r c ch => toUint8 (f r c ch)

/-- The per-index combination loop of `create_mosaic_RGB` (core.py lines
198-199): `[[new_img1[i, ...], new_img2[i, ...], new_img3[i, ...]] for i in
range(maximum)]`, together with the channel-last layout produced by
`np.rollaxis(np.array(rgb_img), 1, 4)` (line 202).  Indexing a mosaic past
its frame count raises IndexError in numpy, modelled by `none`. -/
def buildRGB (m1 m2 m3 : List (ℕ → ℕ → ℚ)) : List ℕ → Option (List (ℕ → ℕ → ℕ → ℚ))
  | [] => some []
  | i :: is =>
    match m1[i]?, m2[i]?, m3[i]? with
    | some f1, some f2, some f3 =>
      (buildRGB m1 m2 m3 is).map fun rest =>
        (fun r c ch =>
          if ch = 0 then f1 r c else if ch = 1 then f2 r c
          else if ch = 2 then f3 r c else 0) :: rest
    | _, _, _ => none

/-- core.py `create_mosaic_RGB` (lines 177-208): three normal mosaics
combined per depth index over `range(maximum)`, then `np.vstack` appends
`np.zeros([3] + [o for o in out_img[-1].shape])` - three all-zero frames
(no uint8 cast in this function). -/
def create_mosaic_RGB (V1 V2 V3 : ℕ → ℕ → ℕ → ℚ) (m frameskip : ℕ) :
    Option (List (ℕ → ℕ → ℕ → ℚ)) :=
  (buildRGB (create_mosaic_normal V1 m frameskip) (create_mosaic_normal V2 m frameskip)
      (create_mosaic_normal V3 m frameskip) (List.range m)).map
    fun l => l ++ [zeroFrame3, zeroFrame3, zeroFrame3]

/-- core.py `write_gif_rgb` lines 298-299: `maximum` is assigned only inside
`if maximum1 == maximum2 and maximum1 == maximum3:`; there is no else branch,
so with mismatched dimensions the later read of `maximum` on line 302 raises
UnboundLocalError.  `none` models the unbound variable; the source contains
no DimensionMismatchError (nor any other explicit dimension check error). -/
def selectMaximum (m1 m2 m3 : ℤ) : Option ℤ :=
  if m1 = m2 ∧ m1 = m3 then some m1 else none

/-- The spec's error kind for an unknown colormap name (spec sections 4.6 and
7).  matplotlib's `get_cmap` raises a ValueError naming the colormap. -/
inductive ConfigError where
  | unknownColormap : String → ConfigError

/-- Errors that can escape the pseudocolor mosaic stage: the colormap lookup
failure, or the IndexError of the frame loop `range(maximum)` when it indexes
past the mosaic's frame count. -/
inductive PseudoStageError where
  | config : ConfigError → PseudoStageError
  | outOfRange : PseudoStageError

/-- Model of `[new_img[i, ...] for i in range(maximum)]` (core.py line 341): collect
the indexed frames, failing like numpy's IndexError when an index is out of
range. -/
def collectFrames (mosaic : List (ℕ → ℕ → ℚ)) : List ℕ → Option (List (ℕ → ℕ → ℚ))
  | [] => some []
  | i :: is =>
    match mosaic[i]? with
    | some f => (collectFrames mosaic is).map (f :: ·)
    | none => none

/-- core.py `write_gif_pseudocolor` colormap stage (lines 340-342).  The
registry lookup models matplotlib's `get_cmap`, an external collaborator
(modelled from the spec, section 4.6: an unknown colormap name fails with a
ConfigError - matplotlib raises a ValueError naming the colormap - before
any frame is processed).  A found colormap maps a value to RGBA;
`np.delete(color_transformed, 3, 3)` drops the alpha channel, leaving
channels 0..2, and `(255 * ...).astype(np.uint8)` rescales. -/
def apply_colormap (registry : List (String × (ℚ → ℚ × ℚ × ℚ × ℚ))) (name : String)
    (mosaic : List (ℕ → ℕ → ℚ)) (m : ℕ) :
    Except PseudoStageError (List (ℕ → ℕ → ℕ → ℚ)) :=
  match registry.lookup name with
  | none => Except.error (PseudoStageError.config (ConfigError.unknownColormap name))
  | some cmap =>
    match collectFrames mosaic (List.range m) with
    | none => Except.error PseudoStageError.outOfRange
    | some frames =>
      Except.ok (frames.map fun f => fun r c ch =>
        toUint8 (255 * (if ch = 0 then (cmap (f r c)).1
          else if ch = 1 then (cmap (f r c)).2.1
          else if ch = 2 then (cmap (f r c)).2.2.1 else 0)))

/-- Shape predicate for the legacy loader's result: the prepared array is an
exact cube whose side equals the reported `maximum` (an int, truncated from
`maximum * size`). -/
def optionCubeZ : Option (Arr3 × ℤ) → Prop
  | none => True
  | some p => (p.1.nx : ℤ) = p.2 ∧ (p.1.ny : ℤ) = p.2 ∧ (p.1.nz : ℤ) = p.2

/-- Shape predicate for the isotropic loader's result: the prepared array is
an exact cube whose side equals the reported `maximum`. -/
def optionCubeN : Option (Arr3 × ℕ) → Prop
  | none => True
  | some p => p.1.nx = p.2 ∧ p.1.ny = p.2 ∧ p.1.nz = p.2

/-- The degenerate 1x1x1 all-zero volume (maximum intensity 0). -/
def zeroVol : Arr3 := ⟨1, 1, 1, fun _ _ _ => 0⟩

/-- A concrete constant-1 cube value function, used by concrete witnesses. -/
def volOne : ℕ → ℕ → ℕ → ℚ := fun _ _ _ => 1

/-- A concrete 1x2x3 constant-1 volume, used by concrete witnesses. -/
def volA : Arr3 := ⟨1, 2, 3, fun _ _ _ => 1⟩

/-- A concrete 1x1x1 constant-1 volume, used by concrete witnesses. -/
def volB : Arr3 := ⟨1, 1, 1, fun _ _ _ => 1⟩

/-- A one-entry concrete colormap registry, used by concrete witnesses. -/
def hotRegistry : List (String × (ℚ → ℚ × ℚ × ℚ × ℚ)) := [("hot", fun q => (q, q, q, 1))]

/- Helper lemmas -/

lemma rangeStepAux_eq (stop step : ℕ) (hstep : 0 < step) :
    ∀ fuel start, stop - start ≤ fuel →
      rangeStepAux stop step fuel start =
        (List.range ((stop - start + step - 1) / step)).map fun j => start + j * step := by
  intro fuel
  induction fuel with
  | zero =>
    intro start h
    have h0 : stop - start = 0 := by omega
    rw [rangeStepAux, h0]
    have h1 : (0 + step - 1) / step = 0 := Nat.div_eq_of_lt (by omega)
    rw [h1, List.range_zero, List.map_nil]
  | succ n ih =>
    intro start h
    by_cases hlt : start < stop
    · rw [rangeStepAux, if_pos hlt, ih (start + step) (by omega)]
      have hL : (stop - start + step - 1) / step
          = (stop - (start + step) + step - 1) / step + 1 := by
        have hd1 : 1 ≤ stop - start := by omega
        have hd' : stop - (start + step) = stop - start - step := by omega
        rw [hd']
        rcases le_or_lt (stop - start) step with hle | hgt
        · have h1 : stop - start - step = 0 := by omega
          have h2 : (0 + step - 1) / step = 0 := Nat.div_eq_of_lt (by omega)
          have h3 : stop - start + step - 1 = (stop - start - 1) + step := by omega
          have h4 : (stop - start - 1) / step = 0 := Nat.div_eq_of_lt (by omega)
          rw [h1, h2, h3, Nat.add_div_right _ hstep, h4]
        · have h3 : stop - start - step + step - 1 = stop - start - 1 := by omega
          have h5 : stop - start + step - 1 = (stop - start - 1) + step := by omega
          rw [h3, h5, Nat.add_div_right _ hstep]
      rw [hL, List.range_succ_eq_map, List.map_cons, List.map_map]
      have hf : ((fun j => start + j * step) ∘ Nat.succ) = fun j => start + step + j * step := by
        funext j
        simp only [Function.comp_apply, Nat.succ_eq_add_one]
        ring
      rw [hf]
      simp
    · rw [rangeStepAux, if_neg hlt]
      have h0 : stop - start = 0 := by omega
      rw [h0]
      have h1 : (0 + step - 1) / step = 0 := Nat.div_eq_of_lt (by omega)
      rw [h1, List.range_zero, List.map_nil]

lemma rangeStep_zero_eq (m k : ℕ) (hk : 0 < k) :
    rangeStep 0 m k = (List.range ((m + k - 1) / k)).map fun j => j * k := by
  have h := rangeStepAux_eq m k hk m 0 (by omega)
  rw [rangeStep, h]
  simp

lemma create_mosaic_normal_length (V : ℕ → ℕ → ℕ → ℚ) (m k : ℕ) (hk : 0 < k) :
    (create_mosaic_normal V m k).length = (m + k - 1) / k := by
  rw [create_mosaic_normal, rangeStep_zero_eq m k hk]
  simp

lemma rangeStepAux_mem_lt (stop step : ℕ) :
    ∀ fuel start i, i ∈ rangeStepAux stop step fuel start → i < stop := by
  intro fuel
  induction fuel with
  | zero => intro start i h; rw [rangeStepAux] at h; simp at h
  | succ n ih =>
    intro start i h
    rw [rangeStepAux] at h
    by_cases hlt : start < stop
    · rw [if_pos hlt] at h
      rcases List.mem_cons.mp h with h1 | h2
      · omega
      · exact ih _ _ h2
    · rw [if_neg hlt] at h
      simp at h

lemma rangeStep_mem_lt (m k i : ℕ) (h : i ∈ rangeStep 0 m k) : i < m :=
  rangeStepAux_mem_lt m k m 0 i h

lemma truncQ_of_nonneg {q : ℚ} (h : 0 ≤ q) : truncQ q = ⌊q⌋ := if_pos h

lemma legacyStart_eq (m d : ℕ) (h : d ≤ m) :
    legacyStart m d = ((isoStart m d : ℕ) : ℤ) := by
  have hq : ((d : ℚ) - (m : ℚ)) / (-2) = ((m - d : ℕ) : ℚ) / 2 := by
    rw [Nat.cast_sub h]
    ring
  rw [legacyStart, hq, truncQ_of_nonneg (by positivity), isoStart]
  exact_mod_cast Rat.floor_natCast_div_natCast (m - d) 2

lemma le_foldr_max (l : List ℚ) (b : ℚ) :
    ∀ x ∈ l, x ≤ l.foldr max b := by
  induction l with
  | nil => intro x hx; simp at hx
  | cons a t ih =>
    intro x hx
    rcases List.mem_cons.mp hx with h | h
    · subst h; exact le_max_left _ _
    · exact le_trans (ih x h) (le_max_right _ _)

lemma foldr_max_choice (l : List ℚ) (b : ℚ) :
    l.foldr max b = b ∨ l.foldr max b ∈ l := by
  induction l with
  | nil => left; rfl
  | cons a t ih =>
    rcases max_choice a (t.foldr max b) with h | h
    · right; rw [List.foldr_cons, h]; exact List.mem_cons_self _ _
    · rcases ih with h1 | h1
      · left; rw [List.foldr_cons, h, h1]
      · right; rw [List.foldr_cons, h]; exact List.mem_cons_of_mem _ h1

lemma mem_vals_iff (a : Arr3) (x : ℚ) :
    x ∈ vals a ↔ ∃ p q r, p < a.nx ∧ q < a.ny ∧ r < a.nz ∧ x = a.val p q r := by
  simp only [vals, List.mem_flatMap, List.mem_map, List.mem_range]
  constructor
  · rintro ⟨p, hp, q, hq, r, hr, h⟩
    exact ⟨p, q, r, hp, hq, hr, h.symm⟩
  · rintro ⟨p, q, r, hp, hq, hr, h⟩
    exact ⟨p, hp, q, hq, r, hr, h.symm⟩

lemma le_maxVal (a : Arr3) (p q r : ℕ) (hp : p < a.nx) (hq : q < a.ny) (hr : r < a.nz) :
    a.val p q r ≤ maxVal a := by
  apply le_foldr_max
  exact (mem_vals_iff a _).mpr ⟨p, q, r, hp, hq, hr, rfl⟩

lemma maxVal_attained (a : Arr3) (hx : 0 < a.nx) (hy : 0 < a.ny) (hz : 0 < a.nz) :
    ∃ p q r, p < a.nx ∧ q < a.ny ∧ r < a.nz ∧ maxVal a = a.val p q r := by
  rcases foldr_max_choice (vals a) (a.val 0 0 0) with h | h
  · exact ⟨0, 0, 0, hx, hy, hz, h⟩
  · exact (mem_vals_iff a _).mp h

lemma nx_le_maxShape (a : Arr3) : a.nx ≤ maxShape a := le_max_left _ _

lemma ny_le_maxShape (a : Arr3) : a.ny ≤ maxShape a :=
  le_trans (le_max_left _ _) (le_max_right _ _)

lemma nz_le_maxShape (a : Arr3) : a.nz ≤ maxShape a :=
  le_trans (le_max_right _ _) (le_max_right _ _)

lemma padCubeIso_copy (data : Arr3) (p q r : ℕ)
    (hp : p < data.nx) (hq : q < data.ny) (hr : r < data.nz) :
    (padCubeIso data).val (isoStart (maxShape data) data.nx + p)
      (isoStart (maxShape data) data.ny + q)
      (isoStart (maxShape data) data.nz + r) = data.val p q r := by
  simp only [padCubeIso]
  rw [if_pos (by refine ⟨?_, ?_, ?_, ?_, ?_, ?_⟩ <;> omega)]
  simp [Nat.add_sub_cancel_left]

lemma maxVal_padCubeIso_pos (data : Arr3)
    (hx : 1 ≤ data.nx) (hy : 1 ≤ data.ny) (hz : 1 ≤ data.nz) (hmax : 0 < maxVal data) :
    0 < maxVal (padCubeIso data) := by
  obtain ⟨p, q, r, hp, hq, hr, hatt⟩ := maxVal_attained data (by omega) (by omega) (by omega)
  have hcopy := padCubeIso_copy data p q r hp hq hr
  have hb1 : isoStart (maxShape data) data.nx + p < (padCubeIso data).nx := by
    have := nx_le_maxShape data
    simp only [padCubeIso, isoStart]
    omega
  have hb2 : isoStart (maxShape data) data.ny + q < (padCubeIso data).ny := by
    have := ny_le_maxShape data
    simp only [padCubeIso, isoStart]
    omega
  have hb3 : isoStart (maxShape data) data.nz + r < (padCubeIso data).nz := by
    have := nz_le_maxShape data
    simp only [padCubeIso, isoStart]
    omega
  have hle := le_maxVal (padCubeIso data) _ _ _ hb1 hb2 hb3
  rw [hcopy] at hle
  calc (0 : ℚ) < maxVal data := hmax
    _ = data.val p q r := hatt
    _ ≤ maxVal (padCubeIso data) := hle

lemma drop_len_sub_append {α : Type} (A Z : List α) (h : Z.length = 3) :
    (A ++ Z).drop ((A ++ Z).length - 3) = Z := by
  have hx : (A ++ Z).length - 3 = A.length := by
    rw [List.length_append, h]
    omega
  rw [hx]
  exact List.drop_left A Z

lemma buildRGB_total (m1 m2 m3 : List (ℕ → ℕ → ℚ)) :
    ∀ is : List ℕ, (∀ i ∈ is, i < m1.length) → (∀ i ∈ is, i < m2.length) →
      (∀ i ∈ is, i < m3.length) →
      ∃ l, buildRGB m1 m2 m3 is = some l ∧ l.length = is.length := by
  intro is
  induction is with
  | nil => intro _ _ _; exact ⟨[], rfl, rfl⟩
  | cons i is ih =>
    intro h1 h2 h3
    obtain ⟨l, hl, hlen⟩ := ih (fun j hj => h1 j (List.mem_cons_of_mem _ hj))
      (fun j hj => h2 j (List.mem_cons_of_mem _ hj)) (fun j hj => h3 j (List.mem_cons_of_mem _ hj))
    rcases hf1 : m1[i]? with _ | f1
    · rw [List.getElem?_eq_none_iff] at hf1
      exact absurd (h1 i (List.mem_cons_self i is)) (by omega)
    rcases hf2 : m2[i]? with _ | f2
    · rw [List.getElem?_eq_none_iff] at hf2
      exact absurd (h2 i (List.mem_cons_self i is)) (by omega)
    rcases hf3 : m3[i]? with _ | f3
    · rw [List.getElem?_eq_none_iff] at hf3
      exact absurd (h3 i (List.mem_cons_self i is)) (by omega)
    refine ⟨(fun r c ch =>
      if ch = 0 then f1 r c else if ch = 1 then f2 r c else if ch = 2 then f3 r c else 0) :: l,
      ?_, by simp [hlen]⟩
    rw [buildRGB, hf1, hf2, hf3, hl]
    rfl

lemma rescale255_finite_shape {a b : Arr3} (h : rescale255 a = ScaleResult.finite b) :
    b.nx = a.nx ∧ b.ny = a.ny ∧ b.nz = a.nz := by
  rw [rescale255] at h
  split at h
  · exact absurd h (by simp)
  · injection h with h
    subst h
    exact ⟨rfl, rfl, rfl⟩

/- Claim theorems -/

/-- C1: for every non-degenerate (maximum intensity positive) resampled
volume of shape `(a, b, c)` with all axes at least 1, the isotropic
normalizer's padding stage produces a cube of side `N = max (a, b, c)` in
which the volume's content sits at per-axis start offset
`isoStart N dim = (N - dim) / 2` (floor division), occupying
`[start, start + dim)` on each axis: the content is copied there verbatim,
every cube cell outside that window is zero, and the after-content pad is at
least the before-content pad, strictly larger when the pad amount `N - dim`
is odd (the larger pad lies after the content).  With size factor 1 the
normalizer returns exactly this cube shape together with `maximum = N`. -/
theorem C1_iso_pad_centered (data : Arr3)
    (hx : 1 ≤ data.nx) (hy : 1 ≤ data.ny) (hz : 1 ≤ data.nz) (hmax : 0 < maxVal data) :
    (padCubeIso data).nx = maxShape data ∧ (padCubeIso data).ny = maxShape data ∧
    (padCubeIso data).nz = maxShape data ∧
    (∀ p q r, p < data.nx → q < data.ny → r < data.nz →
      (padCubeIso data).val (isoStart (maxShape data) data.nx + p)
        (isoStart (maxShape data) data.ny + q)
        (isoStart (maxShape data) data.nz + r) = data.val p q r) ∧
    (∀ i j k,
      (i < isoStart (maxShape data) data.nx ∨ isoStart (maxShape data) data.nx + data.nx ≤ i ∨
       j < isoStart (maxShape data) data.ny ∨ isoStart (maxShape data) data.ny + data.ny ≤ j ∨
       k < isoStart (maxShape data) data.nz ∨ isoStart (maxShape data) data.nz + data.nz ≤ k) →
      (padCubeIso data).val i j k = 0) ∧
    (∀ d ∈ [data.nx, data.ny, data.nz],
      isoStart (maxShape data) d = (maxShape data - d) / 2 ∧
      isoStart (maxShape data) d + d ≤ maxShape data ∧
      isoStart (maxShape data) d ≤ maxShape data - (isoStart (maxShape data) d + d) ∧
      ((maxShape data - d) % 2 = 1 →
        isoStart (maxShape data) d < maxShape data - (isoStart (maxShape data) d + d))) ∧
    (load_and_prepare_image_isotropic data 1).map (fun p => (p.1.nx, p.1.ny, p.1.nz, p.2))
      = some (maxShape data, maxShape data, maxShape data, maxShape data) := by
  refine ⟨rfl, rfl, rfl, padCubeIso_copy data, ?_, ?_, ?_⟩
  · intro i j k hout
    simp only [padCubeIso]
    rw [if_neg]
    intro hcond
    omega
  · intro d hd
    have hdle : d ≤ maxShape data := by
      rcases List.mem_cons.mp hd with h | hd1
      · subst h; exact nx_le_maxShape data
      rcases List.mem_cons.mp hd1 with h | hd2
      · subst h; exact ny_le_maxShape data
      rcases List.mem_cons.mp hd2 with h | hd3
      · subst h; exact nz_le_maxShape data
      · simp at hd3
    refine ⟨rfl, ?_, ?_, ?_⟩ <;> simp only [isoStart] <;> omega
  · have hne : ¬ maxVal (padCubeIso data) = 0 :=
      ne_of_gt (maxVal_padCubeIso_pos data hx hy hz hmax)
    simp [load_and_prepare_image_isotropic, rescale255, hne]
    exact ⟨rfl, rfl, rfl⟩

/-- Witness for C1 at the concrete 1x2x3 constant-1 volume. -/
theorem C1_iso_pad_centered_witness :
    1 ≤ volA.nx ∧ 1 ≤ volA.ny ∧ 1 ≤ volA.nz ∧ 0 < maxVal volA ∧
    (padCubeIso volA).nx = maxShape volA := by
  have hmax : 0 < maxVal volA := by
    norm_num [maxVal, vals, volA, show List.range 1 = [0] from rfl,
      show List.range 2 = [0, 1] from rfl, show List.range 3 = [0, 1, 2] from rfl]
  exact ⟨by decide, by decide, by decide, hmax,
    (C1_iso_pad_centered volA (by decide) (by decide) (by decide) hmax).1⟩

/-- C2: for every cube-shaped volume of side `N ≥ 1` and every
`frameskip ≥ 1`, the normal-variant mosaic has exactly
`ceil (N / frameskip) = (N + frameskip - 1) / frameskip` frames, and the
frame at position `j` is the frame built at depth index `j * frameskip`
(so the depth indices are `0, frameskip, 2 * frameskip, ...` below `N`). -/
theorem C2_mosaic_frame_count (V : ℕ → ℕ → ℕ → ℚ) (m k : ℕ) (hm : 1 ≤ m) (hk : 1 ≤ k) :
    (create_mosaic_normal V m k).length = (m + k - 1) / k ∧
    ∀ j, j < (m + k - 1) / k →
      (create_mosaic_normal V m k)[j]? = some (frameAt V m (j * k)) := by
  constructor
  · exact create_mosaic_normal_length V m k hk
  · intro j hj
    rw [create_mosaic_normal, rangeStep_zero_eq m k hk, List.map_map, List.getElem?_map,
      List.getElem?_range hj]
    rfl

/-- Witness for C2 at a concrete cube of side 2 with frameskip 1. -/
theorem C2_mosaic_frame_count_witness :
    1 ≤ 2 ∧ 1 ≤ 1 ∧ (create_mosaic_normal volOne 2 1).length = (2 + 1 - 1) / 1 :=
  ⟨by decide, by decide, (C2_mosaic_frame_count volOne 2 1 (by decide) (by decide)).1⟩

/-- C3: every normal-variant mosaic frame at depth index `i` is the
horizontal concatenation of three `N x N` panels: at in-plane coordinates
`(r, c)` with `r, c < N`, column block 0 holds the axis-0 slice at index `i`,
column block 1 (columns `N + c`) the axis-1 slice at index `N - 1 - i`, and
column block 2 (columns `2 * N + c`) the axis-2 slice at index `N - 1 - i`,
each flipped along its second in-plane axis and then transposed — which is
exactly the asymmetric `i` versus `N - 1 - i` indexing of the source. -/
theorem C3_mosaic_frame_panels (V : ℕ → ℕ → ℕ → ℚ) (m k i r c : ℕ)
    (hk : 1 ≤ k) (hi : i ∈ rangeStep 0 m k) (hr : r < m) (hc : c < m) :
    frameAt V m i ∈ create_mosaic_normal V m k ∧ i < m ∧
    frameAt V m i r c = V i c (m - 1 - r) ∧
    frameAt V m i r (m + c) = V c (m - i - 1) (m - 1 - r) ∧
    frameAt V m i r (2 * m + c) = V c (m - 1 - r) (m - i - 1) := by
  refine ⟨List.mem_map_of_mem _ hi, rangeStep_mem_lt m k i hi, ?_, ?_, ?_⟩
  · have h1 : c < 2 * m := by omega
    simp [frameAt, hstackW, transposeM, flipAxis1, h1, hc]
  · have h1 : m + c < 2 * m := by omega
    have h2 : ¬ m + c < m := by omega
    simp [frameAt, hstackW, transposeM, flipAxis1, h1, h2, Nat.add_sub_cancel_left]
  · have h1 : ¬ 2 * m + c < 2 * m := by omega
    simp [frameAt, hstackW, transposeM, flipAxis1, h1, Nat.add_sub_cancel_left]

/-- Witness for C3 at a concrete cube of side 2, depth index 1, pixel (0,1). -/
theorem C3_mosaic_frame_panels_witness :
    1 ≤ 1 ∧ (1 : ℕ) ∈ rangeStep 0 2 1 ∧ 0 < 2 ∧ 1 < 2 ∧
    frameAt volOne 2 1 0 1 = volOne 1 1 (2 - 1 - 0) :=
  ⟨by decide, by decide, by decide, by decide,
    (C3_mosaic_frame_panels volOne 2 1 1 0 1 (by decide) (by decide) (by decide) (by decide)).2.2.1⟩

/-- C4 counterexample: the claim fails as stated for `frameskip > 1`.  At a
cube of side 4 with frameskip 2 the normal mosaic has `ceil (4/2) = 2`
frames, but the depth variant iterates `range(maximum - 3)` (one index)
regardless of the frameskip and then appends three zero frames, yielding 4
frames, so the frame counts differ. -/
theorem C4_depth_framecount_cex :
    (create_mosaic_depth volOne 4 2).length ≠ (create_mosaic_normal volOne 4 2).length := by
  decide

/-- C4 (amended): for every cube-shaped volume of side `N ≥ 4` and
frameskip 1, the depth-variant mosaic has the same total frame count as the
normal-variant mosaic built from the same volume and frameskip, and its last
3 frames are entirely zero.  (For frameskip ≥ 2 the counts differ —
see the counterexample — and for `N ≤ 3` the source crashes in
`np.rollaxis` on an empty list.) -/
theorem C4_depth_mosaic_amended (V : ℕ → ℕ → ℕ → ℚ) (m : ℕ) (hm : 4 ≤ m) :
    (create_mosaic_depth V m 1).length = (create_mosaic_normal V m 1).length ∧
    ∀ f ∈ (create_mosaic_depth V m 1).drop ((create_mosaic_depth V m 1).length - 3),
      ∀ r c ch, f r c ch = 0 := by
  have hlen0 : (create_mosaic_normal V m 1).length = m := by
    rw [create_mosaic_normal_length V m 1 (by omega)]
    omega
  have hsplit : create_mosaic_depth V m 1
      = (((List.range (m - 3)).map fun i =>
            fun r c ch =>
              (((create_mosaic_normal V m 1).drop i).take 3).getD ch (fun _ _ => 0) r c).map
          fun f => fun r c ch => toUint8 (f r c ch))
        ++ ([zeroFrame3, zeroFrame3, zeroFrame3].map fun f => fun r c ch => toUint8 (f r c ch)) := by
    rw [create_mosaic_depth, List.map_append]
  constructor
  · rw [hsplit, hlen0]
    simp
    omega
  · intro f hf r c ch
    rw [hsplit, drop_len_sub_append _ _ (by simp)] at hf
    simp only [List.map_cons, List.map_nil, List.mem_cons, List.not_mem_nil, or_false] at hf
    have hz : ∀ x y w : ℕ, toUint8 (zeroFrame3 x y w) = 0 := by
      intro x y w
      norm_num [toUint8, truncQ, zeroFrame3]
    rcases hf with h | h | h <;> (subst h; exact hz r c ch)

/-- Witness for the amended C4 at a concrete cube of side 4 with frameskip 1. -/
theorem C4_depth_mosaic_amended_witness :
    4 ≤ 4 ∧ (create_mosaic_depth volOne 4 1).length = (create_mosaic_normal volOne 4 1).length :=
  ⟨by decide, (C4_depth_mosaic_amended volOne 4 (by decide)).1⟩

/-- C5 counterexample (negation of the claim): there is no volume shape on
which the legacy normalizer's truncated float-division start offset differs
from the isotropic normalizer's floor-division start offset — in particular
none with an odd pad amount.  The truncated quantity `(N - dim) / 2` is
nonnegative, so truncation toward zero coincides with floor division. -/
theorem C5_no_odd_pad_divergence :
    ¬ ∃ data : Arr3, ∃ d ∈ [data.nx, data.ny, data.nz],
      (maxShape data - d) % 2 = 1 ∧
      legacyStart (maxShape data) d ≠ ((isoStart (maxShape data) d : ℕ) : ℤ) := by
  rintro ⟨data, d, hd, _hodd, hne⟩
  apply hne
  apply legacyStart_eq
  rcases List.mem_cons.mp hd with h | hd1
  · subst h; exact nx_le_maxShape data
  rcases List.mem_cons.mp hd1 with h | hd2
  · subst h; exact ny_le_maxShape data
  rcases List.mem_cons.mp hd2 with h | hd3
  · subst h; exact nz_le_maxShape data
  · simp at hd3

/-- C5 (amended): for every axis length `d` not exceeding the cube side `m`,
the legacy normalizer's per-axis start offset (float division of the pad by
2, then truncation toward zero) is EQUAL to the isotropic normalizer's
`(m - d) / 2` floor-division offset, odd pad amounts included: the two
padding paths place content at identical offsets. -/
theorem C5_offsets_agree (m d : ℕ) (h : d ≤ m) :
    legacyStart m d = ((isoStart m d : ℕ) : ℤ) := legacyStart_eq m d h

/-- Witness for the amended C5 at an odd pad amount: side 5, axis length 2,
pad 3; both offsets are 1. -/
theorem C5_offsets_agree_witness :
    2 ≤ 5 ∧ (5 - 2) % 2 = 1 ∧ legacyStart 5 2 = ((isoStart 5 2 : ℕ) : ℤ) :=
  ⟨by norm_num, by norm_num, C5_offsets_agree 5 2 (by norm_num)⟩

/-- C6 (code bug, evaluated at the failing input): for the 1x1x1 all-zero
volume the maximum intensity is 0, and both normalization paths reach the
rescaling division `255 / 0`, which silently produces Inf/NaN
(`ScaleResult.nonFinite`) — no exception is raised and no DataError class
exists anywhere in the source, contradicting the claim that an explicit
DataError is raised. -/
theorem C6_zero_max_silent_nan :
    maxVal zeroVol = 0 ∧
    rescale255 (padCubeLegacy zeroVol) = ScaleResult.nonFinite ∧
    rescale255 (padCubeIso zeroVol) = ScaleResult.nonFinite ∧
    load_and_prepare_image zeroVol 1 = none ∧
    load_and_prepare_image_isotropic zeroVol 1 = none := by
  have h1 : maxVal (padCubeLegacy zeroVol) = 0 := by
    simp [maxVal, vals, padCubeLegacy, zeroVol, maxShape, show List.range 1 = [0] from rfl]
  have h2 : maxVal (padCubeIso zeroVol) = 0 := by
    simp [maxVal, vals, padCubeIso, zeroVol, maxShape, show List.range 1 = [0] from rfl]
  refine ⟨?_, ?_, ?_, ?_, ?_⟩
  · simp [maxVal, vals, zeroVol, show List.range 1 = [0] from rfl]
  · rw [rescale255, if_pos h1]
  · rw [rescale255, if_pos h2]
  · rw [load_and_prepare_image, rescale255, if_pos h1]
  · rw [load_and_prepare_image_isotropic, rescale255, if_pos h2]

/-- C7 (code bug, evaluated at the failing input): with mismatched cube
dimensions (64, 64, 32) the guard of `write_gif_rgb` assigns nothing
(`selectMaximum` is `none`, modelling the UnboundLocalError raised at the
subsequent use of `maximum`); no DimensionMismatchError class exists in the
source.  With equal dimensions the guard assigns `maximum1`. -/
theorem C7_dimension_mismatch_unbound :
    selectMaximum 64 64 32 = none ∧ selectMaximum 64 64 64 = some 64 := by
  constructor <;> decide

/-- C8 (spec-modelled registry): for every colormap name not present in the
registry, the colormap application stage of `write_gif_pseudocolor` fails
with the ConfigError naming the colormap, before any frame is processed. -/
theorem C8_unknown_colormap_config_error
    (registry : List (String × (ℚ → ℚ × ℚ × ℚ × ℚ))) (name : String)
    (mosaic : List (ℕ → ℕ → ℚ)) (m : ℕ)
    (h : registry.lookup name = none) :
    apply_colormap registry name mosaic m =
      Except.error (PseudoStageError.config (ConfigError.unknownColormap name)) := by
  rw [apply_colormap, h]

/-- Witness for C8 at a concrete one-entry registry and the unknown name
`not_a_colormap`. -/
theorem C8_unknown_colormap_config_error_witness :
    hotRegistry.lookup "not_a_colormap" = none ∧
    apply_colormap hotRegistry "not_a_colormap" [] 0 =
      Except.error (PseudoStageError.config (ConfigError.unknownColormap "not_a_colormap")) :=
  ⟨rfl, C8_unknown_colormap_config_error hotRegistry "not_a_colormap" [] 0 rfl⟩

/-- C9 counterexample: at three identical 1x1x1 volumes with frameskip 1 the
RGB composition yields `1 + 3 = 4` frames, not the `1 + 1 = 2` frames the
claim's single trailing all-zero frame would imply: `np.zeros([3] + ...)`
appends three zero frames, not one. -/
theorem C9_single_trailing_frame_cex :
    Option.map List.length (create_mosaic_RGB volOne volOne volOne 1 1) = some 4 ∧
    (4 : ℕ) ≠ 1 + 1 := by
  constructor
  · rfl
  · decide

/-- C9 (amended): for every triple of equal-dimension volumes with
frameskip 1, the RGB-variant composition appends exactly THREE trailing
all-zero frames to the combined per-index 3-channel frame sequence (which has
one frame per depth index).  The frameskip-1 restriction is forced: for
frameskip ≥ 2 the per-index loop `range(maximum)` indexes past the mosaic's
frame count and the composition fails with an IndexError. -/
theorem C9_rgb_three_zero_frames (V1 V2 V3 : ℕ → ℕ → ℕ → ℚ) (m : ℕ) :
    ∃ per : List (ℕ → ℕ → ℕ → ℚ),
      create_mosaic_RGB V1 V2 V3 m 1 = some (per ++ [zeroFrame3, zeroFrame3, zeroFrame3]) ∧
      per.length = m ∧ ∀ r c ch, zeroFrame3 r c ch = 0 := by
  have hlen1 : (create_mosaic_normal V1 m 1).length = m := by
    rw [create_mosaic_normal_length V1 m 1 (by omega)]; omega
  have hlen2 : (create_mosaic_normal V2 m 1).length = m := by
    rw [create_mosaic_normal_length V2 m 1 (by omega)]; omega
  have hlen3 : (create_mosaic_normal V3 m 1).length = m := by
    rw [create_mosaic_normal_length V3 m 1 (by omega)]; omega
  obtain ⟨l, hl, hlen⟩ := buildRGB_total _ _ _ (List.range m)
    (by intro i hi; rw [hlen1]; exact List.mem_range.mp hi)
    (by intro i hi; rw [hlen2]; exact List.mem_range.mp hi)
    (by intro i hi; rw [hlen3]; exact List.mem_range.mp hi)
  refine ⟨l, ?_, by rw [hlen, List.length_range], fun r c ch => rfl⟩
  rw [create_mosaic_RGB, hl]
  rfl

/-- C10: for every volume, both loaders return a pair whose array is an
exact cube with side length equal to the returned `maximum`, for every
positive size factor — including when a size factor different from 1
triggers a resize (the resized side is `int(size * maximum)` and the
returned maximum follows it).  Degenerate volumes (zero maximum intensity)
return no meaningful result and are excluded by the `Option`. -/
theorem C10_cube_side_eq_maximum (dataA dataB : Arr3) (size : ℚ) (hsize : 0 < size) :
    optionCubeZ (load_and_prepare_image dataA size) ∧
    optionCubeN (load_and_prepare_image_isotropic dataB size) := by
  constructor
  · rcases hres : rescale255 (padCubeLegacy dataA) with _ | img
    · simp [load_and_prepare_image, hres, optionCubeZ]
    · obtain ⟨e1, e2, e3⟩ := rescale255_finite_shape hres
      by_cases hs : size = 1
      · subst hs
        simp only [load_and_prepare_image, hres, ne_eq, not_true_eq_false, if_false,
          optionCubeZ, mul_one]
        rw [truncQ_of_nonneg (by positivity), Int.floor_natCast]
        refine ⟨?_, ?_, ?_⟩ <;> simp [e1, e2, e3, padCubeLegacy]
      · have hnn : (0 : ℚ) ≤ size * (maxShape dataA : ℚ) := by positivity
        have hfl : 0 ≤ truncQ (size * (maxShape dataA : ℚ)) := by
          rw [truncQ_of_nonneg hnn]
          exact Int.le_floor.mpr (by exact_mod_cast hnn)
        simp only [load_and_prepare_image, hres, ne_eq, hs, not_false_eq_true, if_true,
          optionCubeZ, resizeCube]
        rw [mul_comm ((maxShape dataA : ℚ)) size]
        refine ⟨?_, ?_, ?_⟩ <;> simp [Int.toNat_of_nonneg hfl]
  · rcases hres : rescale255 (padCubeIso dataB) with _ | img
    · simp [load_and_prepare_image_isotropic, hres, optionCubeN]
    · obtain ⟨e1, e2, e3⟩ := rescale255_finite_shape hres
      by_cases hs : size = 1
      · subst hs
        simp only [load_and_prepare_image_isotropic, hres, ne_eq, not_true_eq_false, if_false,
          optionCubeN]
        refine ⟨?_, ?_, ?_⟩ <;> simp [e1, e2, e3, padCubeIso]
      · simp only [load_and_prepare_image_isotropic, hres, ne_eq, hs, not_false_eq_true, if_true,
          optionCubeN, resizeCube]
        simp

/-- Witness for C10 at a concrete 1x1x1 constant-1 volume with size
factor 2. -/
theorem C10_cube_side_eq_maximum_witness :
    (0 : ℚ) < 2 ∧ optionCubeZ (load_and_prepare_image volB 2) ∧
    optionCubeN (load_and_prepare_image_isotropic volB 2) :=
  ⟨by norm_num, (C10_cube_side_eq_maximum volB volB 2 (by norm_num)).1,
    (C10_cube_side_eq_maximum volB volB 2 (by norm_num)).2⟩

end GifYourNifti
